import Mathlib

/-!
# Verification of the go-datadog-api request pipeline

A shallow embedding of the request-execution core of the `datadog` Go
package (files `request.go`, `ratelimit.go`, and the client definition):
URL construction with credential injection, method-based retry dispatch,
per-attempt retry classification, response handling with JSON envelope
detection, rate-limit header extraction, and credential redaction of
errors.

Go strings are modelled as `List Char`; Go `error` values as `GoError`
(a message plus a tag standing for the error's dynamic type).  External
library functions (`net/url` parsing, `encoding/json` marshalling, the
HTTP transport) are modelled as oracles: their outcomes are inputs to
the embedded functions, with their documented output shape reproduced
where the code depends on it.
-/

/-- A Go `error` value: its message (`Error()` string) and a tag standing
for its dynamic type.  Tag `0` is `errors.New` / `fmt.Errorf`-style basic
errors; other tags distinguish library error types where the code
inspects them. -/
structure GoError where
  msg : List Char
  typeId : Nat
deriving DecidableEq, Repr

/-- Dynamic-type tag for `*json.UnmarshalTypeError` (the error
`encoding/json` returns on a structural type mismatch). -/
def jsonTypeErrId : Nat := 10

/-- Dynamic-type tag for any other `encoding/json` decode error
(e.g. `*json.SyntaxError` on malformed JSON). -/
def jsonParseErrId : Nat := 11

/-- Dynamic-type tag for `*url.Error` returned by `net/url.Parse`. -/
def urlErrId : Nat := 1

/-- Fuel-indexed body of `replaceAll`.  The fuel only makes the
recursion structural; `replaceAll` supplies `s.length`, which bounds the
number of steps, so the `0`-fuel fallback is never reached from
`replaceAll`. -/
def replaceAllFuel : Nat → List Char → List Char → List Char → List Char
  | 0, s, _, _ => s
  | fuel + 1, s, old, new =>
    match s with
    | [] => []
    | c :: rest =>
      if old ≠ [] ∧ old <+: (c :: rest) then
        new ++ replaceAllFuel fuel ((c :: rest).drop old.length) old new
      else
        c :: replaceAllFuel fuel rest old new

/-- `strings.Replace(s, old, new, -1)`: replace every non-overlapping
occurrence of `old` in `s` by `new`, scanning left to right.  The Go
function inserts `new` at every position when `old` is empty; the sole
caller in this repository (`redactKeysFromError`) guards `len(key) > 0`,
so the empty-`old` case is modelled as the identity. -/
def replaceAll (s old new : List Char) : List Char :=
  replaceAllFuel s.length s old new

/-- The fixed replacement placeholder `"redacted"`. -/
def redactedChars : List Char := "redacted".toList

/-- One iteration of the loop in `redactKeysFromError`: replace a single
key in the running message, skipping empty keys (`len(key) > 0`). -/
def redactStep (m key : List Char) : List Char :=
  if 0 < key.length then replaceAll m key redactedChars else m

/-- The loop of `redactKeysFromError`: fold `redactStep` over the keys. -/
def redactMsg (m : List Char) (keys : List (List Char)) : List Char :=
  keys.foldl redactStep m

/-- `errors.New`: a fresh basic error with the given message. -/
def errorsNew (m : List Char) : GoError := ⟨m, 0⟩

/-- `redactKeysFromError` from `request.go`: removes api and application
keys from error strings.  Returns the original error value when no
replacement changed the message, otherwise a fresh `errors.New` error
with the redacted message. -/
def redactKeysFromError (err : Option GoError) (keys : List (List Char)) :
    Option GoError :=
  match err with
  | none => none
  | some e =>
    let errMessage := redactMsg e.msg keys
    if errMessage = e.msg then some e
    else some (errorsNew errMessage)

/-! ### Method-based dispatch (`doerForMethod`) -/

/-- The two doers `doerForMethod` can return: `client.HttpClient.Do`
(a single transport attempt) or `client.doRequestWithRetries` (the
retrying executor). -/
inductive DoerKind where
  | singleAttempt
  | withRetries
deriving DecidableEq, Repr

/-- `doerForMethod` from `request.go`: `POST` and `PUT` get the
single-attempt doer `client.HttpClient.Do`; every other method string
gets `client.doRequestWithRetries`. -/
def doerForMethod (method : List Char) : DoerKind :=
  if method = "POST".toList ∨ method = "PUT".toList then .singleAttempt
  else .withRetries

/-- Modelled from the spec: a mutating method is one with create/update
semantics — `POST` (create) and `PUT` (update).  (`DELETE`, though it
mutates, is idempotent and is not in this class; the spec's wire
contract uses only `GET|POST|PUT|DELETE`.) -/
def mutatingMethod (method : List Char) : Prop :=
  method = "POST".toList ∨ method = "PUT".toList

/-! ### Retry classification (`doRequestWithRetries`) -/

/-- The `operation` closure inside `doRequestWithRetries`, applied to
one transport attempt's outcome (`client.HttpClient.Do`: either an
error with no response, or a response carrying a status code).
Returning `none` stops the retry loop (the response is handed to the
caller); returning `some e` makes `backoff.RetryNotify` schedule
another attempt under the active backoff policy, with `e` as the error
reported to the retry-notification callback. -/
def retryOperation (attempt : Except GoError Nat) : Option GoError :=
  match attempt with
  | .error e => some e
  | .ok code =>
    if 200 ≤ code ∧ code < 300 then none
    else if 400 ≤ code ∧ code < 500 then none
    else some ⟨"Received HTTP status code ".toList ++ (Nat.repr code).toList, 0⟩

/-! ### Client configuration and backoff selection -/

/-- The backoff policy handed to `backoff.WithContext` by
`doRequestWithRetries`: either the caller-supplied `client.BackOff`
value (opaque, identified by a tag) or the exponential policy built by
`getBackOff`, of which the code sets only `MaxElapsedTime`
(nanoseconds; the remaining `backoff.NewExponentialBackOff` fields keep
their library defaults and are not modelled). -/
inductive BackOffPolicy where
  | custom (id : Nat)
  | exponential (maxElapsedTime : Int)
deriving DecidableEq, Repr

/-- The `Client` struct (credentials, base URL, retry configuration).
`HttpClient` and `RetryNotify` are modelled as oracles at their call
sites; `time.Duration` is an `Int` count of nanoseconds.  `NewClient`
initializes `RetryTimeout` to `-1`, the "unset" sentinel checked by
`getBackOff`. -/
structure Client where
  apiKey : List Char
  appKey : List Char
  baseUrl : List Char
  RetryTimeout : Int
  BackOff : Option BackOffPolicy
deriving DecidableEq, Repr

/-- `getBackOff` from `request.go`: a caller-supplied policy wins;
otherwise an exponential backoff whose `MaxElapsedTime` is
`RetryTimeout` when that differs from the `-1` sentinel, else
`60 * time.Second`. -/
def getBackOff (c : Client) : BackOffPolicy :=
  match c.BackOff with
  | some b => b
  | none =>
    .exponential (if c.RetryTimeout ≠ -1 then c.RetryTimeout else 60 * 1000000000)

/-! ### Rate-limit header extraction (`ratelimit.go`) -/

/-- `http.Header.Get`: headers as an association list (keys already in
canonical form); the first value for the key, `""` when absent. -/
def headerGet (header : List (List Char × List Char)) (key : List Char) :
    List Char :=
  match header.find? (fun p => p.1 == key) with
  | some p => p.2
  | none => []

/-- Numeric value of a decimal digit string (most significant first). -/
def digitsVal (s : List Char) : Nat :=
  s.foldl (fun acc c => 10 * acc + (c.toNat - 48)) 0

/-- Split a list into its leading run of decimal digits and the rest. -/
def splitDigits : List Char → List Char × List Char
  | [] => ([], [])
  | c :: rest =>
    if c.isDigit then
      let (d, r) := splitDigits rest
      (c :: d, r)
    else ([], c :: rest)

/-- `strconv.ParseInt(s, 10, 64)`: optional sign, then at least one
decimal digit and nothing else, with the value in the `int64` range
(Go reports out-of-range input with a non-nil error, which the caller
treats like any other failure, so it is `none` here). -/
def parseInt64 (s : List Char) : Option Int :=
  match s with
  | [] => none
  | c :: rest =>
    let signed : Bool × List Char :=
      if c = '-' then (true, rest)
      else if c = '+' then (false, rest)
      else (false, c :: rest)
    let digits := signed.2
    if digits ≠ [] ∧ digits.all (fun d => d.isDigit) then
      let v : Int := (digitsVal digits : Int)
      let v := if signed.1 then -v else v
      if -(2 ^ 63) ≤ v ∧ v < 2 ^ 63 then some v else none
    else none

/-- Modelled from `strconv.ParseFloat(s, 64)`, restricted to finite
decimal literals: optional sign, decimal digits with an optional
fractional part (at least one digit overall), and an optional decimal
exponent.  Go additionally accepts `inf`/`nan` spellings, hexadecimal
floats and digit-separating underscores, and reports out-of-range
values with an error; those fringe inputs are outside this model.  The
result is the exact rational value (float64 rounding of successful
parses is not modelled; the claims concern only the failure cases). -/
def parseFloatQ (s : List Char) : Option ℚ :=
  let signed : Bool × List Char :=
    match s with
    | '-' :: rest => (true, rest)
    | '+' :: rest => (false, rest)
    | _ => (false, s)
  let (ip, s₂) := splitDigits signed.2
  let fraced : List Char × List Char :=
    match s₂ with
    | '.' :: rest => splitDigits rest
    | _ => ([], s₂)
  let fp := fraced.1
  if ip = [] ∧ fp = [] then none
  else
    let mant : ℚ := (digitsVal ip : ℚ) + (digitsVal fp : ℚ) / ((10 : ℚ) ^ fp.length)
    let mant := if signed.1 then -mant else mant
    match fraced.2 with
    | [] => some mant
    | e :: rest =>
      if e = 'e' ∨ e = 'E' then
        let esigned : Bool × List Char :=
          match rest with
          | '-' :: r => (true, r)
          | '+' :: r => (false, r)
          | _ => (false, rest)
        let (ed, r₂) := splitDigits esigned.2
        if ed = [] ∨ r₂ ≠ [] then none
        else
          let ex : Int :=
            if esigned.1 then -(digitsVal ed : Int) else (digitsVal ed : Int)
          some (mant * (10 : ℚ) ^ ex)
      else none

/-- `intFromHeader` from `ratelimit.go`: a parse failure is logged as a
warning and yields `0`; it is never surfaced as an error. -/
def intFromHeader (header : List (List Char × List Char)) (key : List Char) :
    Int :=
  match parseInt64 (headerGet header key) with
  | none => 0
  | some v => v

/-- Truncation toward zero, as Go's float64-to-int64 conversion. -/
def ratTrunc (q : ℚ) : Int :=
  if 0 ≤ q then q.floor else q.ceil

/-- `durationFromHeader` from `ratelimit.go`: parse a seconds value and
convert to `time.Duration` (nanoseconds) via `seconds * 1e9`; a parse
failure is logged as a warning and yields `0`. -/
def durationFromHeader (header : List (List Char × List Char))
    (key : List Char) : Int :=
  match parseFloatQ (headerGet header key) with
  | none => 0
  | some seconds => ratTrunc (seconds * 1000000000)

/-- The `RateLimit` struct: `Limit`/`Remaining` are counts, `Period`/
`Reset` are `time.Duration` nanosecond counts. -/
structure RateLimit where
  Limit : Int
  Period : Int
  Remaining : Int
  Reset : Int
deriving DecidableEq, Repr

/-- `newRateLimitFromHeaders` from `ratelimit.go`. -/
def newRateLimitFromHeaders (header : List (List Char × List Char)) :
    RateLimit where
  Limit := intFromHeader header "X-RateLimit-Limit".toList
  Period := durationFromHeader header "X-RateLimit-Period".toList
  Remaining := intFromHeader header "X-RateLimit-Remaining".toList
  Reset := durationFromHeader header "X-RateLimit-Reset".toList

/-! ### JSON values and envelope decoding (`handleResponse`) -/

/-- A parsed JSON document, the oracle domain for `encoding/json`. -/
inductive JsonValue where
  | null
  | jbool (b : Bool)
  | jnum (n : Int)
  | jstr (s : List Char)
  | jarr (elems : List JsonValue)
  | jobj (fields : List (List Char × JsonValue))

/-- The `StatusResponse` envelope struct: common fields that might be
present in any API response. -/
structure StatusResponse where
  Status : List Char
  Error : List Char
deriving DecidableEq, Repr

/-- Effective value of one string field under `encoding/json` struct
decoding: absent keys and JSON `null` leave the zero value `""` with no
error; a non-string value is a `*json.UnmarshalTypeError` for that
field (the decoder records it and keeps going, leaving the field at its
zero value).  Duplicate keys are modelled as last-occurrence-wins.
Returns the field value and whether decoding it succeeded. -/
def decodeStringField (fields : List (List Char × JsonValue))
    (key : List Char) : List Char × Bool :=
  match (fields.filter (fun p => p.1 == key)).getLast? with
  | none => ([], true)
  | some p =>
    match p.2 with
    | JsonValue.null => ([], true)
    | JsonValue.jstr s => (s, true)
    | _ => ([], false)

/-- `json.Unmarshal(body, &common)` for `common : StatusResponse`,
modelled over the parsed body (`none` = the body is not valid JSON).
Returns the (possibly partially populated) struct and the error, if
any: a `*json.UnmarshalTypeError` (tag `jsonTypeErrId`) when the body
is not a JSON object or a present field is not a string, and a
parse-level error (tag `jsonParseErrId`) when the body is not valid
JSON.  A top-level JSON `null` is a no-op in Go and decodes without
error. -/
def unmarshalStatus (body : Option JsonValue) :
    StatusResponse × Option GoError :=
  match body with
  | none => (⟨[], []⟩, some ⟨"invalid JSON body".toList, jsonParseErrId⟩)
  | some JsonValue.null => (⟨[], []⟩, none)
  | some (JsonValue.jobj fields) =>
    let st := decodeStringField fields "status".toList
    let er := decodeStringField fields "error".toList
    (⟨st.1, er.1⟩,
      if st.2 ∧ er.2 then none
      else some ⟨"json: cannot unmarshal value into Go struct field".toList,
        jsonTypeErrId⟩)
  | some _ =>
    (⟨[], []⟩,
      some ⟨"json: cannot unmarshal value into Go value of type datadog.StatusResponse".toList,
        jsonTypeErrId⟩)

/-- A caller-supplied decoding target `out`: the final
`json.Unmarshal(body, &out)` is an oracle from the parsed body to an
optional decode error. -/
structure OutTarget where
  decode : Option JsonValue → Option GoError

/-- An `*http.Response` as far as `handleResponse` and
`doRequestWithContext` consume it.  `readErr` is the outcome of
`ioutil.ReadAll` on the body; `bodyJson` is the JSON parse of `bodyRaw`
(an oracle for `encoding/json`: `none` when `bodyRaw` is not valid
JSON). -/
structure HttpResponse where
  statusCode : Nat
  status : List Char
  readErr : Option GoError
  bodyRaw : List Char
  bodyJson : Option JsonValue
  header : List (List Char × List Char)

/-- The body actually decoded: an empty body is replaced by `"{}"`,
which parses to the empty JSON object. -/
def effectiveBody (resp : HttpResponse) : Option JsonValue :=
  if resp.bodyRaw = [] then some (JsonValue.jobj []) else resp.bodyJson

/-- Which exit of `handleResponse` produced a failure; one constructor
per `return` of an error in the Go function. -/
inductive HandleStep where
  | readBody
  | httpStatus
  | envelopeDecode
  | apiStatus
  | outDecode
deriving DecidableEq, Repr

/-- Result of `handleResponse`. -/
inductive HandleOutcome where
  | success
  | fail (step : HandleStep) (e : GoError)
deriving DecidableEq, Repr

/-- The last two steps of `handleResponse`: `if out == nil` return
success, else `json.Unmarshal(body, &out)`. -/
def targetDecode (body : Option JsonValue) (out : Option OutTarget) :
    HandleOutcome :=
  match out with
  | none => .success
  | some tgt =>
    match tgt.decode body with
    | none => .success
    | some e => .fail .outDecode e

/-- The envelope steps of `handleResponse`: decode the body into
`StatusResponse`, ignore a `*json.UnmarshalTypeError` and fail on any
other decode error; fail when the (possibly partially populated)
envelope's status equals the literal `"error"`; otherwise continue to
`targetDecode`. -/
def envelopePhase (body : Option JsonValue) (out : Option OutTarget) :
    HandleOutcome :=
  let dec := unmarshalStatus body
  let afterEnvelope : HandleOutcome :=
    if dec.1.Status = "error".toList then
      .fail .apiStatus ⟨"API returned error: ".toList ++ dec.1.Error, 0⟩
    else targetDecode body out
  match dec.2 with
  | some er =>
    if er.typeId = jsonTypeErrId then afterEnvelope
    else .fail .envelopeDecode er
  | none => afterEnvelope

/-- `handleResponse` from `request.go`: read the body; non-2xx statuses
fail with a status-line-and-body error; an empty body is replaced by
`"{}"` (`effectiveBody`); then the envelope check (`envelopePhase`) and
the decode into `out` (`targetDecode`).  The helper defs are the
consecutive phases of the single Go function. -/
def handleResponse (resp : HttpResponse) (out : Option OutTarget) :
    HandleOutcome :=
  match resp.readErr with
  | some e => .fail .readBody e
  | none =>
    if resp.statusCode < 200 ∨ 299 < resp.statusCode then
      .fail .httpStatus
        ⟨"API error ".toList ++ resp.status ++ ": ".toList ++ resp.bodyRaw, 0⟩
    else envelopePhase (effectiveBody resp) out

/-- Concrete response for the claim C6 counterexample: HTTP 200 with
body `{"status":"error","error":5}` — the `error` field's type
mismatches the envelope's string field. -/
def c6resp : HttpResponse where
  statusCode := 200
  status := "200 OK".toList
  readErr := none
  bodyRaw := "\x7b\x22status\x22:\x22error\x22,\x22error\x22:5\x7d".toList
  bodyJson := some (JsonValue.jobj
    [("status".toList, JsonValue.jstr "error".toList),
     ("error".toList, JsonValue.jnum 5)])
  header := []

/-- An object-shaped caller target that accepts any body. -/
def c6out : Option OutTarget := some ⟨fun _ => none⟩

/-- Concrete response for the claim C6 witness: HTTP 200 with the
array body `[]`. -/
def c6arr : HttpResponse where
  statusCode := 200
  status := "200 OK".toList
  readErr := none
  bodyRaw := "[]".toList
  bodyJson := some (JsonValue.jarr [])
  header := []

/-- Concrete response for the claim C5 witness: HTTP 200 with body
`{"status":"error","error":"boom"}`. -/
def c5resp : HttpResponse where
  statusCode := 200
  status := "200 OK".toList
  readErr := none
  bodyRaw := "\x7b\x22status\x22:\x22error\x22,\x22error\x22:\x22boom\x22\x7d".toList
  bodyJson := some (JsonValue.jobj
    [("status".toList, JsonValue.jstr "error".toList),
     ("error".toList, JsonValue.jstr "boom".toList)])
  header := []

/-! ### The request pipeline (`doRequestWithContext`) -/

/-- Go's `%q` quoting as it appears in `url.Error.Error()` messages,
simplified to surrounding double quotes (escaping of special characters
is not modelled; the inputs used here contain none that `%q` would
alter beyond the quotes). -/
def goQuote (s : List Char) : List Char := '\x22' :: s ++ ['\x22']

/-- `uriForAPI` from `request.go`.  The outcome of
`url.Parse(client.baseUrl + "/api" + api)` is supplied as an oracle
(`parseErr`, the failure reason when the parse fails, e.g. on a control
character).  On failure the returned `*url.Error` message is
`parse "URL": reason` — it embeds the raw URL, which at this point is
`baseUrl + "/api" + api`; the credentials are appended as query
parameters only after a successful parse (the `q.Encode`
percent-encoding and ordering of a successful URL are simplified to
plain concatenation; no claim depends on the success string). -/
def uriForAPI (c : Client) (api : List Char) (parseErr : Option (List Char)) :
    Except GoError (List Char) :=
  match parseErr with
  | some reason =>
    .error ⟨"parse ".toList ++ goQuote (c.baseUrl ++ "/api".toList ++ api)
      ++ ": ".toList ++ reason, urlErrId⟩
  | none =>
    .ok (c.baseUrl ++ "/api".toList ++ api ++ "?api_key=".toList ++ c.apiKey
      ++ "&application_key=".toList ++ c.appKey)

/-- Oracles for the external steps of one `doRequestWithContext` call:
`parseErr` is the `url.Parse` outcome inside `uriForAPI`; `buildErr` a
failure of `newJSONRequest` (from `json.Marshal` of the body or
`http.NewRequest`); `doResult` the outcome of the doer selected by
`doerForMethod` (the transport / retry phase). -/
structure ReqSteps where
  parseErr : Option (List Char)
  buildErr : Option GoError
  doResult : Except GoError HttpResponse

/-- `ResponseMetadata` from `request.go`. -/
structure ResponseMetadata where
  RateLimit : RateLimit
deriving DecidableEq, Repr

/-- `doRequestWithContext` from `request.go`: build the URI (the
`uriForAPI` error is returned as-is), build the JSON request, run the
doer, handle the response — each later failure is passed through
`redactKeysFromError` with the client's keys — and only after a
successful `handleResponse` fill the metadata from the rate-limit
headers. -/
def doRequestWithContext (c : Client) (api : List Char) (steps : ReqSteps)
    (out : Option OutTarget) : ResponseMetadata × Option GoError :=
  match uriForAPI c api steps.parseErr with
  | .error e => (⟨⟨0, 0, 0, 0⟩⟩, some e)
  | .ok _ =>
    match steps.buildErr with
    | some e =>
      (⟨⟨0, 0, 0, 0⟩⟩, redactKeysFromError (some e) [c.apiKey, c.appKey])
    | none =>
      match steps.doResult with
      | .error e =>
        (⟨⟨0, 0, 0, 0⟩⟩, redactKeysFromError (some e) [c.apiKey, c.appKey])
      | .ok resp =>
        match handleResponse resp out with
        | .fail _ e =>
          (⟨⟨0, 0, 0, 0⟩⟩, redactKeysFromError (some e) [c.apiKey, c.appKey])
        | .success => (⟨newRateLimitFromHeaders resp.header⟩, none)

/-- Client for the claim C2 counterexample: the API key `KEY123` also
occurs verbatim in the caller-configured base URL, and the base URL
contains a control character, which makes `url.Parse` fail. -/
def c2client : Client where
  apiKey := "KEY123".toList
  appKey := "APPK".toList
  baseUrl := "http://KEY123\x01".toList
  RetryTimeout := -1
  BackOff := none

/-- Steps for the claim C2 counterexample: `url.Parse` rejects the
control character in the base URL. -/
def c2steps : ReqSteps where
  parseErr := some "net/url: invalid control character in URL".toList
  buildErr := none
  doResult := Except.error ⟨[], 0⟩

/-- Concrete successful response for the claim C10 witness, carrying a
rate-limit header. -/
def c10resp : HttpResponse where
  statusCode := 200
  status := "200 OK".toList
  readErr := none
  bodyRaw := []
  bodyJson := none
  header := [("X-RateLimit-Limit".toList, "10".toList)]

/-! ### Lemmas about `replaceAll` -/

/-- An occurrence inside a tail is an occurrence in the whole list. -/
theorem cons_extends_occurrence {q s : List Char} {c : Char}
    (h : q <:+: s) : q <:+: c :: s := by
  obtain ⟨u, v, h⟩ := h
  exact ⟨c :: u, v, by simp [← h]⟩

/-- A leading occurrence is an occurrence. -/
theorem occurrence_of_leading {q s : List Char} (h : q <+: s) : q <:+: s := by
  obtain ⟨t, ht⟩ := h
  exact ⟨[], t, by simp [ht]⟩

/-- An occurrence inside `s.drop n` is an occurrence in `s`. -/
theorem occurrence_in_drop {q s : List Char} {n : Nat}
    (h : q <:+: s.drop n) : q <:+: s := by
  obtain ⟨u, v, h⟩ := h
  refine ⟨s.take n ++ u, v, ?_⟩
  simp only [List.append_assoc] at h ⊢
  rw [h, List.take_append_drop]

/-- Stripping a left context whose characters are all foreign to `q`:
a nonempty `q` occurring in `a ++ t` must occur in `t`. -/
theorem strip_left_disjoint {a : List Char} {t q : List Char}
    (hq : q ≠ []) (hd : ∀ c ∈ q, c ∉ a) (h : q <:+: a ++ t) : q <:+: t := by
  induction a with
  | nil => simpa using h
  | cons x a ih =>
    obtain ⟨u, v, h⟩ := h
    match u, h with
    | [], h =>
      match q, hq with
      | d :: q, _ =>
        simp only [List.nil_append, List.cons_append] at h
        have hdx : d = x := (List.cons.injEq _ _ _ _).mp h |>.1
        exact absurd (List.mem_cons_self x a)
          (hdx ▸ hd d (List.mem_cons_self d q))
    | x₀ :: u, h =>
      simp only [List.cons_append] at h
      have h₂ := (List.cons.injEq _ _ _ _).mp h |>.2
      exact ih (fun c hc => fun hca => hd c hc (List.mem_cons_of_mem x hca))
        ⟨u, v, h₂⟩

/-- With no occurrence of `old` in `s`, `replaceAllFuel` is the
identity. -/
theorem replaceAllFuel_id (fuel : Nat) :
    ∀ s old new : List Char, ¬ old <:+: s →
      replaceAllFuel fuel s old new = s := by
  induction fuel with
  | zero => intro s old new _; rfl
  | succ fuel ih =>
    intro s old new h
    match s with
    | [] => rfl
    | c :: rest =>
      have hcond : ¬ (old ≠ [] ∧ old <+: (c :: rest)) := by
        rintro ⟨-, hpre⟩
        exact h (occurrence_of_leading hpre)
      simp only [replaceAllFuel, if_neg hcond]
      rw [ih rest old new (fun hocc => h (cons_extends_occurrence hocc))]

/-- A list whose characters are foreign to `new` and which is a leading
segment of a `replaceAllFuel` output is a leading segment of the
input. -/
theorem leading_transfer (fuel : Nat) :
    ∀ s q old new : List Char, s.length ≤ fuel →
      (∀ c ∈ q, c ∉ new) → new ≠ [] →
      q <+: replaceAllFuel fuel s old new → q <+: s := by
  induction fuel with
  | zero => intro s q old new _ _ _ h; exact h
  | succ fuel ih =>
    intro s q old new hlen hq hnew h
    match s with
    | [] => exact h
    | c :: rest =>
      by_cases hcond : old ≠ [] ∧ old <+: (c :: rest)
      · simp only [replaceAllFuel, if_pos hcond] at h
        match q, h with
        | [], _ => exact ⟨c :: rest, rfl⟩
        | d :: q, h =>
          obtain ⟨t, ht⟩ := h
          match new, hnew with
          | n₀ :: new, _ =>
            rw [List.cons_append, List.cons_append] at ht
            have hdn : d = n₀ := (List.cons.injEq _ _ _ _).mp ht |>.1
            exact absurd (List.mem_cons_self n₀ new)
              (hdn ▸ hq d (List.mem_cons_self d q))
      · simp only [replaceAllFuel, if_neg hcond] at h
        match q, h with
        | [], _ => exact ⟨c :: rest, rfl⟩
        | d :: q, h =>
          obtain ⟨t, ht⟩ := h
          rw [List.cons_append] at ht
          have hdc : d = c := (List.cons.injEq _ _ _ _).mp ht |>.1
          have h₂ := (List.cons.injEq _ _ _ _).mp ht |>.2
          have hq' : q <+: rest :=
            ih rest q old new (by simpa using Nat.le_of_succ_le_succ hlen)
              (fun c hc => hq c (List.mem_cons_of_mem d hc)) hnew ⟨t, h₂⟩
          obtain ⟨t', ht'⟩ := hq'
          exact ⟨t', by rw [hdc, List.cons_append, ht']⟩

/-- A nonempty list whose characters are foreign to `new` occurs in the
output of `replaceAllFuel` only if it occurs in the input. -/
theorem occurrence_transfer (fuel : Nat) :
    ∀ s q old new : List Char, s.length ≤ fuel →
      q ≠ [] → new ≠ [] → (∀ c ∈ q, c ∉ new) →
      q <:+: replaceAllFuel fuel s old new → q <:+: s := by
  induction fuel with
  | zero => intro s q old new _ _ _ _ h; exact h
  | succ fuel ih =>
    intro s q old new hlen hqne hnew hq h
    match s with
    | [] => exact h
    | c :: rest =>
      by_cases hcond : old ≠ [] ∧ old <+: (c :: rest)
      · rw [show replaceAllFuel (fuel + 1) (c :: rest) old new
            = new ++ replaceAllFuel fuel ((c :: rest).drop old.length) old new
            from by simp only [replaceAllFuel, if_pos hcond]] at h
        have h' := strip_left_disjoint hqne hq h
        have hold : 0 < old.length := List.length_pos.mpr hcond.1
        have hlen' : ((c :: rest).drop old.length).length ≤ fuel := by
          simp only [List.length_drop, List.length_cons]
          simp only [List.length_cons] at hlen
          omega
        exact occurrence_in_drop
          (ih ((c :: rest).drop old.length) q old new hlen' hqne hnew hq h')
      · rw [show replaceAllFuel (fuel + 1) (c :: rest) old new
            = c :: replaceAllFuel fuel rest old new
            from by simp only [replaceAllFuel, if_neg hcond]] at h
        obtain ⟨u, v, huv⟩ := h
        match u, huv with
        | [], huv =>
          have hpre : q <+: replaceAllFuel (fuel + 1) (c :: rest) old new := by
            rw [show replaceAllFuel (fuel + 1) (c :: rest) old new
              = c :: replaceAllFuel fuel rest old new
              from by simp only [replaceAllFuel, if_neg hcond]]
            exact ⟨v, by simpa using huv⟩
          exact occurrence_of_leading
            (leading_transfer (fuel + 1) (c :: rest) q old new hlen hq hnew hpre)
        | c₀ :: u, huv =>
          rw [List.cons_append, List.cons_append] at huv
          have h₂ := (List.cons.injEq _ _ _ _).mp huv |>.2
          exact cons_extends_occurrence
            (ih rest q old new (by simpa using Nat.le_of_succ_le_succ hlen)
              hqne hnew hq ⟨u, v, h₂⟩)

/-- After replacement, `old` itself no longer occurs, provided its
characters are foreign to `new`. -/
theorem no_self_occurrence (fuel : Nat) :
    ∀ s old new : List Char, s.length ≤ fuel →
      old ≠ [] → new ≠ [] → (∀ c ∈ old, c ∉ new) →
      ¬ old <:+: replaceAllFuel fuel s old new := by
  induction fuel with
  | zero =>
    intro s old new hlen hold _ _ h
    match s, hlen with
    | [], _ =>
      obtain ⟨u, v, huv⟩ := h
      have huv' : u ++ old ++ v = ([] : List Char) := huv
      obtain ⟨h₁, -⟩ := List.append_eq_nil.mp huv'
      exact hold (List.append_eq_nil.mp h₁).2
  | succ fuel ih =>
    intro s old new hlen hold hnew hdisj h
    match s with
    | [] =>
      obtain ⟨u, v, huv⟩ := h
      have huv' : u ++ old ++ v = ([] : List Char) := huv
      obtain ⟨h₁, -⟩ := List.append_eq_nil.mp huv'
      exact hold (List.append_eq_nil.mp h₁).2
    | c :: rest =>
      by_cases hcond : old ≠ [] ∧ old <+: (c :: rest)
      · rw [show replaceAllFuel (fuel + 1) (c :: rest) old new
            = new ++ replaceAllFuel fuel ((c :: rest).drop old.length) old new
            from by simp only [replaceAllFuel, if_pos hcond]] at h
        have h' := strip_left_disjoint hold hdisj h
        have holdlen : 0 < old.length := List.length_pos.mpr hold
        have hlen' : ((c :: rest).drop old.length).length ≤ fuel := by
          simp only [List.length_drop, List.length_cons]
          simp only [List.length_cons] at hlen
          omega
        exact ih ((c :: rest).drop old.length) old new hlen' hold hnew hdisj h'
      · rw [show replaceAllFuel (fuel + 1) (c :: rest) old new
            = c :: replaceAllFuel fuel rest old new
            from by simp only [replaceAllFuel, if_neg hcond]] at h
        obtain ⟨u, v, huv⟩ := h
        match u, huv with
        | [], huv =>
          have hpre : old <+: replaceAllFuel (fuel + 1) (c :: rest) old new := by
            rw [show replaceAllFuel (fuel + 1) (c :: rest) old new
              = c :: replaceAllFuel fuel rest old new
              from by simp only [replaceAllFuel, if_neg hcond]]
            exact ⟨v, by simpa using huv⟩
          exact hcond ⟨hold,
            leading_transfer (fuel + 1) (c :: rest) old old new hlen hdisj hnew hpre⟩
        | c₀ :: u, huv =>
          rw [List.cons_append, List.cons_append] at huv
          have h₂ := (List.cons.injEq _ _ _ _).mp huv |>.2
          exact ih rest old new (by simpa using Nat.le_of_succ_le_succ hlen)
            hold hnew hdisj ⟨u, v, h₂⟩

/-! ### Lemmas about `redactMsg` / `redactKeysFromError` -/

theorem replaceAll_id {s old new : List Char} (h : ¬ old <:+: s) :
    replaceAll s old new = s :=
  replaceAllFuel_id s.length s old new h

theorem replaceAll_occurrence_transfer {s q old new : List Char}
    (hq : q ≠ []) (hnew : new ≠ []) (hdisj : ∀ c ∈ q, c ∉ new)
    (h : q <:+: replaceAll s old new) : q <:+: s :=
  occurrence_transfer s.length s q old new (Nat.le_refl _) hq hnew hdisj h

theorem replaceAll_no_self {s old new : List Char}
    (hold : old ≠ []) (hnew : new ≠ []) (hdisj : ∀ c ∈ old, c ∉ new) :
    ¬ old <:+: replaceAll s old new :=
  no_self_occurrence s.length s old new (Nat.le_refl _) hold hnew hdisj

theorem redactedChars_ne_nil : redactedChars ≠ [] := by decide

/-- If no key occurs in the message, the fold leaves it unchanged. -/
theorem redactMsg_id {m : List Char} {keys : List (List Char)}
    (h : ∀ k ∈ keys, ¬ k <:+: m) : redactMsg m keys = m := by
  induction keys with
  | nil => rfl
  | cons k keys ih =>
    have hstep : redactStep m k = m := by
      unfold redactStep
      split
      · exact replaceAll_id (h k (List.mem_cons_self k keys))
      · rfl
    show redactMsg (redactStep m k) keys = m
    rw [hstep]
    exact ih (fun k' hk' => h k' (List.mem_cons_of_mem k hk'))

/-- Absence of a `redacted`-foreign pattern is preserved by the fold. -/
theorem redactMsg_preserves_absence {q m : List Char} {keys : List (List Char)}
    (hq : q ≠ []) (hdisj : ∀ c ∈ q, c ∉ redactedChars)
    (h : ¬ q <:+: m) : ¬ q <:+: redactMsg m keys := by
  induction keys generalizing m with
  | nil => exact h
  | cons k keys ih =>
    show ¬ q <:+: redactMsg (redactStep m k) keys
    refine ih ?_
    intro hocc
    unfold redactStep at hocc
    split at hocc
    · exact h (replaceAll_occurrence_transfer hq redactedChars_ne_nil hdisj hocc)
    · exact h hocc

/-- After the fold, no nonempty key foreign to `"redacted"` occurs in
the result. -/
theorem redactMsg_removes_keys {m : List Char} {keys : List (List Char)}
    (hkeys : ∀ k ∈ keys, k ≠ [] ∧ ∀ c ∈ k, c ∉ redactedChars) :
    ∀ k ∈ keys, ¬ k <:+: redactMsg m keys := by
  induction keys generalizing m with
  | nil => intro k hk; cases hk
  | cons k₀ keys ih =>
    intro k hk
    obtain ⟨hne, hdisj⟩ := hkeys k hk
    rcases List.mem_cons.mp hk with rfl | hk'
    · show ¬ k <:+: redactMsg (redactStep m k) keys
      refine redactMsg_preserves_absence hne hdisj ?_
      unfold redactStep
      rw [if_pos (List.length_pos.mpr hne)]
      exact replaceAll_no_self hne redactedChars_ne_nil hdisj
    · exact ih (fun k' h' => hkeys k' (List.mem_cons_of_mem k₀ h')) k hk'

/-- Claim C4, counterexample.  The claim states that whenever a secret
occurs in an error message, the redactor's output contains none of the
secrets verbatim.  This fails: with message `"xedy"` and secret `"ed"`,
the secret occurs in the message, yet the output message
`"xredactedy"` (the placeholder `"redacted"` spans the letters `e`,`d`)
still contains `"ed"` verbatim. -/
theorem c4_redactor_cx :
    ("ed".toList <:+: "xedy".toList) ∧
    redactKeysFromError (some ⟨"xedy".toList, 7⟩) ["ed".toList]
      = some ⟨"xredactedy".toList, 0⟩ ∧
    ("ed".toList <:+: "xredactedy".toList) := by
  refine ⟨⟨"x".toList, "y".toList, by decide⟩, by decide,
    ⟨"xr".toList, "actedy".toList, by decide⟩⟩

/-- Claim C4, amended: for every non-nil error and list of secrets, if
every secret is nonempty and shares no character with the placeholder
`"redacted"`, then the redactor's output message contains none of the
secrets verbatim.  (The restriction is forced: a secret sharing
characters with the placeholder can reappear across replacement
boundaries, as the counterexample shows.) -/
theorem c4_redactor_amended (e : GoError) (keys : List (List Char)) (r : GoError)
    (hkeys : ∀ k ∈ keys, k ≠ [] ∧ ∀ c ∈ k, c ∉ redactedChars)
    (hr : redactKeysFromError (some e) keys = some r) :
    ∀ k ∈ keys, ¬ k <:+: r.msg := by
  have hmsg : r.msg = redactMsg e.msg keys := by
    replace hr : (if redactMsg e.msg keys = e.msg then some e
        else some (errorsNew (redactMsg e.msg keys))) = some r := hr
    by_cases heq : redactMsg e.msg keys = e.msg
    · rw [if_pos heq] at hr
      injection hr with hr
      rw [← hr, heq]
    · rw [if_neg heq] at hr
      injection hr with hr
      rw [← hr]
      rfl
  intro k hk
  rw [hmsg]
  exact redactMsg_removes_keys hkeys k hk

/-- Witness for `c4_redactor_amended` at a concrete input. -/
theorem c4_witness :
    ¬ ("KEY".toList <:+: (errorsNew "xxredactedyy".toList).msg) :=
  c4_redactor_amended ⟨"xxKEYyy".toList, 3⟩ ["KEY".toList]
    (errorsNew "xxredactedyy".toList) (by decide) (by decide)
    "KEY".toList (by decide)

/-- Claim C9: for every non-nil error and every list of secret strings,
when no secret occurs in the error's message, `redactKeysFromError`
returns the original error value itself (same message and same
dynamic-type tag), not a newly constructed error. -/
theorem c9_redactor_identity (e : GoError) (keys : List (List Char))
    (h : ∀ k ∈ keys, ¬ k <:+: e.msg) :
    redactKeysFromError (some e) keys = some e := by
  simp [redactKeysFromError, redactMsg_id h]

/-- Witness for `c9_redactor_identity` at a concrete input (note the
preserved dynamic-type tag `42`). -/
theorem c9_witness :
    redactKeysFromError (some ⟨"hello world".toList, 42⟩) ["secret".toList]
      = some ⟨"hello world".toList, 42⟩ :=
  c9_redactor_identity ⟨"hello world".toList, 42⟩ ["secret".toList] (by decide)

/-- Claim C1: for every method string, `doerForMethod` returns the
single-attempt doer exactly when the method is mutating (create/update
semantics); all other methods are dispatched to the retrying path. -/
theorem c1_doer_dispatch (method : List Char) :
    doerForMethod method = DoerKind.singleAttempt ↔ mutatingMethod method := by
  unfold doerForMethod mutatingMethod
  by_cases h : method = "POST".toList ∨ method = "PUT".toList
  · rw [if_pos h]
    exact ⟨fun _ => h, fun _ => rfl⟩
  · rw [if_neg h]
    exact ⟨fun hc => DoerKind.noConfusion hc, fun hc => absurd hc h⟩

/-- Witness for `c1_doer_dispatch` at concrete methods: `POST` is
single-attempt, `DELETE` is retried. -/
theorem c1_witness :
    doerForMethod "POST".toList = DoerKind.singleAttempt ∧
    doerForMethod "DELETE".toList ≠ DoerKind.singleAttempt := by
  constructor
  · exact (c1_doer_dispatch "POST".toList).mpr (Or.inl rfl)
  · intro h
    rcases (c1_doer_dispatch "DELETE".toList).mp h with h' | h' <;>
      exact absurd h' (by decide)

/-- Claim C3: per attempt inside the retrying executor, a
transport-level failure is retryable (the error is propagated to the
backoff loop); a status in `[200,300)` stops retrying; a status in
`[400,500)` stops retrying without being retried; and every other
status is classified retryable, producing an error that triggers
another attempt. -/
theorem c3_retry_classification :
    (∀ e : GoError, retryOperation (Except.error e) = some e) ∧
    (∀ code : Nat, 200 ≤ code → code < 300 →
      retryOperation (Except.ok code) = none) ∧
    (∀ code : Nat, 400 ≤ code → code < 500 →
      retryOperation (Except.ok code) = none) ∧
    (∀ code : Nat, ¬ (200 ≤ code ∧ code < 300) → ¬ (400 ≤ code ∧ code < 500) →
      retryOperation (Except.ok code)
        = some ⟨"Received HTTP status code ".toList ++ (Nat.repr code).toList, 0⟩) := by
  refine ⟨fun e => rfl, fun code h₁ h₂ => ?_, fun code h₁ h₂ => ?_,
    fun code h₁ h₂ => ?_⟩
  · simp [retryOperation, h₁, h₂]
  · have : ¬ (200 ≤ code ∧ code < 300) := by omega
    simp [retryOperation, this, h₁, h₂]
  · simp [retryOperation, h₁, h₂]

/-- Witness for `c3_retry_classification` at concrete attempts: a
transport error retries, `204` and `404` stop, `503` retries. -/
theorem c3_witness :
    retryOperation (Except.error ⟨"conn refused".toList, 0⟩)
      = some ⟨"conn refused".toList, 0⟩ ∧
    retryOperation (Except.ok 204) = none ∧
    retryOperation (Except.ok 404) = none ∧
    retryOperation (Except.ok 503)
      = some ⟨"Received HTTP status code ".toList ++ (Nat.repr 503).toList, 0⟩ :=
  ⟨c3_retry_classification.1 ⟨"conn refused".toList, 0⟩,
   c3_retry_classification.2.1 204 (by decide) (by decide),
   c3_retry_classification.2.2.1 404 (by decide) (by decide),
   c3_retry_classification.2.2.2 503 (by decide) (by decide)⟩

/-- Claim C8: the backoff policy provider returns the caller-supplied
policy verbatim when one is set; otherwise an exponential policy whose
maximum elapsed time is the configured retry timeout when it differs
from the `-1` sentinel, and 60 seconds (in nanoseconds) when it equals
the sentinel. -/
theorem c8_backoff_selection (c : Client) :
    (∀ b, c.BackOff = some b → getBackOff c = b) ∧
    (c.BackOff = none → c.RetryTimeout ≠ -1 →
      getBackOff c = BackOffPolicy.exponential c.RetryTimeout) ∧
    (c.BackOff = none → c.RetryTimeout = -1 →
      getBackOff c = BackOffPolicy.exponential 60000000000) := by
  refine ⟨fun b hb => ?_, fun hnone hne => ?_, fun hnone heq => ?_⟩
  · simp [getBackOff, hb]
  · simp [getBackOff, hnone, hne]
  · simp [getBackOff, hnone, heq]

/-- Witness for `c8_backoff_selection` at concrete clients covering all
three selection branches. -/
theorem c8_witness :
    getBackOff ⟨[], [], [], -1, some (BackOffPolicy.custom 9)⟩
      = BackOffPolicy.custom 9 ∧
    getBackOff ⟨[], [], [], 5000000000, none⟩
      = BackOffPolicy.exponential 5000000000 ∧
    getBackOff ⟨[], [], [], -1, none⟩
      = BackOffPolicy.exponential 60000000000 :=
  ⟨(c8_backoff_selection _).1 (BackOffPolicy.custom 9) rfl,
   (c8_backoff_selection _).2.1 rfl (by decide),
   (c8_backoff_selection _).2.2 rfl rfl⟩

/-- Claim C7: per field, a missing or unparseable rate-limit header
yields zero for that field without affecting the others, and when all
four headers are missing or non-numeric the extractor returns the
all-zero rate limit; the extractor is a total function — it never
fails. -/
theorem c7_ratelimit_zero (header : List (List Char × List Char)) :
    ((parseInt64 (headerGet header "X-RateLimit-Limit".toList)).isNone →
      (newRateLimitFromHeaders header).Limit = 0) ∧
    ((parseFloatQ (headerGet header "X-RateLimit-Period".toList)).isNone →
      (newRateLimitFromHeaders header).Period = 0) ∧
    ((parseInt64 (headerGet header "X-RateLimit-Remaining".toList)).isNone →
      (newRateLimitFromHeaders header).Remaining = 0) ∧
    ((parseFloatQ (headerGet header "X-RateLimit-Reset".toList)).isNone →
      (newRateLimitFromHeaders header).Reset = 0) ∧
    ((parseInt64 (headerGet header "X-RateLimit-Limit".toList)).isNone →
      (parseFloatQ (headerGet header "X-RateLimit-Period".toList)).isNone →
      (parseInt64 (headerGet header "X-RateLimit-Remaining".toList)).isNone →
      (parseFloatQ (headerGet header "X-RateLimit-Reset".toList)).isNone →
      newRateLimitFromHeaders header = ⟨0, 0, 0, 0⟩) := by
  have hint : ∀ key : List Char, (parseInt64 (headerGet header key)).isNone →
      intFromHeader header key = 0 := by
    intro key h
    unfold intFromHeader
    cases hp : parseInt64 (headerGet header key) with
    | none => rfl
    | some v => rw [hp] at h; cases h
  have hdur : ∀ key : List Char, (parseFloatQ (headerGet header key)).isNone →
      durationFromHeader header key = 0 := by
    intro key h
    unfold durationFromHeader
    cases hp : parseFloatQ (headerGet header key) with
    | none => rfl
    | some v => rw [hp] at h; cases h
  refine ⟨fun h => hint _ h, fun h => hdur _ h, fun h => hint _ h,
    fun h => hdur _ h, fun h₁ h₂ h₃ h₄ => ?_⟩
  show (⟨_, _, _, _⟩ : RateLimit) = ⟨0, 0, 0, 0⟩
  rw [hint _ h₁, hdur _ h₂, hint _ h₃, hdur _ h₄]

/-- Witness for `c7_ratelimit_zero`: a header set with one non-numeric
value, one empty value, and two missing headers extracts to the
all-zero rate limit. -/
theorem c7_witness :
    newRateLimitFromHeaders
      [("X-RateLimit-Limit".toList, "abc".toList),
       ("X-RateLimit-Period".toList, [])]
      = ⟨0, 0, 0, 0⟩ :=
  ((c7_ratelimit_zero _).2.2.2.2 (by decide) (by decide) (by decide) (by decide))

/-! ### Lemmas about `handleResponse` -/

/-- On a readable 2xx response, `handleResponse` is the envelope phase
on the effective body. -/
theorem handleResponse_2xx (resp : HttpResponse) (out : Option OutTarget)
    (hread : resp.readErr = none) (h2 : 200 ≤ resp.statusCode)
    (h3 : resp.statusCode ≤ 299) :
    handleResponse resp out = envelopePhase (effectiveBody resp) out := by
  unfold handleResponse
  rw [hread]
  dsimp only
  rw [if_neg (by omega : ¬ (resp.statusCode < 200 ∨ 299 < resp.statusCode))]

/-- A non-`UnmarshalTypeError` decode error only arises when the body
is not valid JSON, in which case the envelope stays at its zero value
(in particular its status is empty). -/
theorem unmarshalStatus_nontype_err (body : Option JsonValue) (er : GoError)
    (h : (unmarshalStatus body).2 = some er) (hne : er.typeId ≠ jsonTypeErrId) :
    (unmarshalStatus body).1.Status = [] := by
  match body with
  | none => rfl
  | some JsonValue.null => exact absurd h (by simp [unmarshalStatus])
  | some (JsonValue.jbool b) =>
    exact absurd (congrArg GoError.typeId (Option.some.injEq _ _ ▸ h : _ = er).symm)
      hne
  | some (JsonValue.jnum n) =>
    exact absurd (congrArg GoError.typeId (Option.some.injEq _ _ ▸ h : _ = er).symm)
      hne
  | some (JsonValue.jstr s) =>
    exact absurd (congrArg GoError.typeId (Option.some.injEq _ _ ▸ h : _ = er).symm)
      hne
  | some (JsonValue.jarr xs) =>
    exact absurd (congrArg GoError.typeId (Option.some.injEq _ _ ▸ h : _ = er).symm)
      hne
  | some (JsonValue.jobj fields) =>
    dsimp only [unmarshalStatus] at h
    split at h
    · cases h
    · exact absurd (congrArg GoError.typeId (Option.some.inj h)).symm hne

/-- When the decoded envelope's status is the literal `"error"`, the
envelope phase fails with the API error, whatever the target. -/
theorem envelopePhase_api_error (body : Option JsonValue)
    (out : Option OutTarget)
    (hst : (unmarshalStatus body).1.Status = "error".toList) :
    envelopePhase body out
      = HandleOutcome.fail HandleStep.apiStatus
          ⟨"API returned error: ".toList ++ (unmarshalStatus body).1.Error, 0⟩ := by
  unfold envelopePhase
  cases hd2 : (unmarshalStatus body).2 with
  | none =>
    dsimp only
    rw [hd2, if_pos hst]
  | some er =>
    dsimp only
    rw [hd2]
    dsimp only
    by_cases ht : er.typeId = jsonTypeErrId
    · rw [if_pos ht, if_pos hst]
    · exact absurd (unmarshalStatus_nontype_err body er hd2 ht)
        (by rw [hst]; decide)

/-- Claim C5: an HTTP response in the success range whose body decodes
into the status envelope with status equal to the literal `"error"`
makes `handleResponse` fail with an error carrying the envelope's
error string, and never succeed. -/
theorem c5_envelope_error (resp : HttpResponse) (out : Option OutTarget)
    (hread : resp.readErr = none) (h2 : 200 ≤ resp.statusCode)
    (h3 : resp.statusCode ≤ 299)
    (hst : (unmarshalStatus (effectiveBody resp)).1.Status = "error".toList) :
    handleResponse resp out
      = HandleOutcome.fail HandleStep.apiStatus
          ⟨"API returned error: ".toList
            ++ (unmarshalStatus (effectiveBody resp)).1.Error, 0⟩ ∧
    handleResponse resp out ≠ HandleOutcome.success := by
  rw [handleResponse_2xx resp out hread h2 h3,
    envelopePhase_api_error _ out hst]
  exact ⟨rfl, fun hc => HandleOutcome.noConfusion hc⟩

/-- Witness for `c5_envelope_error`: body
`{"status":"error","error":"boom"}` with HTTP 200 yields the error
`API returned error: boom`. -/
theorem c5_witness :
    handleResponse c5resp none
      = HandleOutcome.fail HandleStep.apiStatus
          ⟨"API returned error: boom".toList, 0⟩ :=
  ((c5_envelope_error c5resp none rfl (by decide) (by decide)
    (by decide)).1).trans (by decide)

/-- Claim C6, counterexample.  The claim states that every 200-range
body failing envelope decoding with a structural type mismatch makes
the handler proceed to decode into the caller's target.  This fails
when the mismatch is on the `error` field of an envelope whose
`status` field did decode to `"error"`: body
`{"status":"error","error":5}` produces an `UnmarshalTypeError` (so
envelope decoding failed with a type mismatch), the caller's target
would accept the body, yet the handler returns the API-status failure
instead of proceeding to the target decode. -/
theorem c6_type_mismatch_cx :
    ((unmarshalStatus (effectiveBody c6resp)).2
      = some ⟨"json: cannot unmarshal value into Go struct field".toList,
          jsonTypeErrId⟩) ∧
    targetDecode (effectiveBody c6resp) c6out = HandleOutcome.success ∧
    handleResponse c6resp c6out
      = HandleOutcome.fail HandleStep.apiStatus
          ⟨"API returned error: ".toList, 0⟩ :=
  ⟨by decide, rfl, by decide⟩

/-- Claim C6, amended: on a readable 200-range response, an envelope
decode failure that is a structural type mismatch
(`*json.UnmarshalTypeError`) is tolerated: the handler does not fail at
the envelope-detection step and proceeds to decode into the
caller-supplied target — unless the partially decoded envelope's status
field equals `"error"`, in which case it fails with that API error;
every other kind of envelope decode error makes the handler fail with
that error. -/
theorem c6_type_mismatch_amended (resp : HttpResponse) (out : Option OutTarget)
    (hread : resp.readErr = none) (h2 : 200 ≤ resp.statusCode)
    (h3 : resp.statusCode ≤ 299) :
    (∀ er, (unmarshalStatus (effectiveBody resp)).2 = some er →
      er.typeId = jsonTypeErrId →
      (unmarshalStatus (effectiveBody resp)).1.Status ≠ "error".toList →
      handleResponse resp out = targetDecode (effectiveBody resp) out) ∧
    (∀ er, (unmarshalStatus (effectiveBody resp)).2 = some er →
      er.typeId = jsonTypeErrId →
      (unmarshalStatus (effectiveBody resp)).1.Status = "error".toList →
      handleResponse resp out
        = HandleOutcome.fail HandleStep.apiStatus
            ⟨"API returned error: ".toList
              ++ (unmarshalStatus (effectiveBody resp)).1.Error, 0⟩) ∧
    (∀ er, (unmarshalStatus (effectiveBody resp)).2 = some er →
      er.typeId ≠ jsonTypeErrId →
      handleResponse resp out
        = HandleOutcome.fail HandleStep.envelopeDecode er) := by
  rw [handleResponse_2xx resp out hread h2 h3]
  refine ⟨fun er h1 ht hst => ?_,
    fun er h1 ht hst => envelopePhase_api_error _ out hst,
    fun er h1 ht => ?_⟩
  · unfold envelopePhase
    dsimp only
    rw [h1]
    dsimp only
    rw [if_pos ht, if_neg hst]
  · unfold envelopePhase
    dsimp only
    rw [h1]
    dsimp only
    rw [if_neg ht]

/-- Witness for `c6_type_mismatch_amended`: the array body `[]` with
HTTP 200 is tolerated at the envelope step and the handler proceeds to
the caller's target, which accepts it. -/
theorem c6_witness : handleResponse c6arr c6out = HandleOutcome.success :=
  ((c6_type_mismatch_amended c6arr c6out rfl (by decide) (by decide)).1
    ⟨"json: cannot unmarshal value into Go value of type datadog.StatusResponse".toList,
      jsonTypeErrId⟩ (by decide) rfl (by decide)).trans rfl

/-! ### Claims about `doRequestWithContext` -/

/-- A non-nil input always redacts to a non-nil output. -/
theorem redact_some_of_some (e : GoError) (keys : List (List Char)) :
    ∃ r, redactKeysFromError (some e) keys = some r := by
  unfold redactKeysFromError
  dsimp only
  split
  · exact ⟨e, rfl⟩
  · exact ⟨_, rfl⟩

/-- Claim C2, counterexample.  The claim states that every error
returned by `doRequestWithContext` — including the URL-construction
error — is free of the client's keys and passes through the redactor.
But the `uriForAPI` error is returned without redaction, and
`url.Parse`'s message embeds the raw `baseUrl + "/api" + api` string:
when the API key happens to occur verbatim in the caller-configured
base URL and the URL fails to parse, the returned error contains the
key. -/
theorem c2_redaction_cx :
    (doRequestWithContext c2client "/v1/events".toList c2steps none).2
      = some ⟨("parse \x22http://KEY123\x01/api/v1/events\x22: "
          ++ "net/url: invalid control character in URL").toList, urlErrId⟩ ∧
    "KEY123".toList <:+:
      ((doRequestWithContext c2client "/v1/events".toList c2steps none).2.getD
        ⟨[], 0⟩).msg := ⟨by decide, by decide⟩

/-- Claim C2, amended: every error produced after URL construction
(request building, transport/retry, response handling) passes through
`redactKeysFromError` with the client's keys before being returned; the
URL-construction error alone is returned unredacted, as the literal
`parse "baseUrl/api<path>": reason` message of `url.Parse`, in which
the credentials appear only if they textually occur in the base URL or
path (they are injected as query parameters only after a successful
parse). -/
theorem c2_redaction_amended (c : Client) (api : List Char) (steps : ReqSteps)
    (out : Option OutTarget) :
    (steps.parseErr = none →
      ∀ e, (doRequestWithContext c api steps out).2 = some e →
        ∃ e₀, some e = redactKeysFromError (some e₀) [c.apiKey, c.appKey]) ∧
    (∀ reason, steps.parseErr = some reason →
      (doRequestWithContext c api steps out).2
        = some ⟨"parse ".toList ++ goQuote (c.baseUrl ++ "/api".toList ++ api)
            ++ ": ".toList ++ reason, urlErrId⟩) := by
  constructor
  · intro hp e h
    unfold doRequestWithContext at h
    rw [hp] at h
    dsimp only [uriForAPI] at h
    cases hbe : steps.buildErr with
    | some b =>
      rw [hbe] at h
      dsimp only at h
      exact ⟨b, h.symm⟩
    | none =>
      rw [hbe] at h
      dsimp only at h
      cases hdr : steps.doResult with
      | error t =>
        rw [hdr] at h
        dsimp only at h
        exact ⟨t, h.symm⟩
      | ok resp =>
        rw [hdr] at h
        dsimp only at h
        cases hh : handleResponse resp out with
        | fail st e' =>
          rw [hh] at h
          dsimp only at h
          exact ⟨e', h.symm⟩
        | success =>
          rw [hh] at h
          dsimp only at h
          cases h
  · intro reason hp
    unfold doRequestWithContext
    rw [hp]
    dsimp only [uriForAPI]

/-- Witness for `c2_redaction_amended`: a request-marshalling error
mentioning the API key `SECRET` comes back from the pipeline as the
redactor's output for some underlying error (here with the key replaced
by `redacted`). -/
theorem c2_witness :
    ∃ e₀, some (⟨"json: unsupported type chan of redacted".toList, 0⟩ : GoError)
        = redactKeysFromError (some e₀) ["SECRET".toList, "APP".toList] :=
  (c2_redaction_amended
    ⟨"SECRET".toList, "APP".toList, "http://example.com".toList, -1, none⟩
    "/v1/events".toList
    ⟨none, some ⟨"json: unsupported type chan of SECRET".toList, 0⟩,
      Except.error ⟨[], 0⟩⟩
    none).1 rfl
    ⟨"json: unsupported type chan of redacted".toList, 0⟩ (by decide)

/-- Claim C10: whenever `doRequestWithContext` returns a non-nil error,
the accompanying metadata is the zero value (all four rate-limit fields
zero); the rate limit is filled from the response headers only after
`handleResponse` succeeded. -/
theorem c10_metadata_zero (c : Client) (api : List Char) (steps : ReqSteps)
    (out : Option OutTarget) :
    ((doRequestWithContext c api steps out).2.isSome →
      (doRequestWithContext c api steps out).1 = ⟨⟨0, 0, 0, 0⟩⟩) ∧
    (∀ resp, steps.doResult = Except.ok resp →
      (doRequestWithContext c api steps out).2 = none →
      (doRequestWithContext c api steps out).1
        = ⟨newRateLimitFromHeaders resp.header⟩) := by
  constructor
  · intro hsome
    unfold doRequestWithContext at hsome ⊢
    cases hpe : steps.parseErr with
    | some r => dsimp only [uriForAPI]
    | none =>
      rw [hpe] at hsome
      dsimp only [uriForAPI] at hsome ⊢
      cases hbe : steps.buildErr with
      | some b => dsimp only
      | none =>
        rw [hbe] at hsome
        dsimp only at hsome ⊢
        cases hdr : steps.doResult with
        | error t => dsimp only
        | ok resp =>
          rw [hdr] at hsome
          dsimp only at hsome ⊢
          cases hh : handleResponse resp out with
          | fail st e' => dsimp only
          | success =>
            rw [hh] at hsome
            dsimp only at hsome
            exact absurd hsome (by decide)
  · intro resp hresp hnone
    unfold doRequestWithContext at hnone ⊢
    rw [hresp] at hnone ⊢
    cases hpe : steps.parseErr with
    | some r =>
      rw [hpe] at hnone
      dsimp only [uriForAPI] at hnone
      cases hnone
    | none =>
      rw [hpe] at hnone
      dsimp only [uriForAPI] at hnone ⊢
      cases hbe : steps.buildErr with
      | some b =>
        rw [hbe] at hnone
        dsimp only at hnone
        obtain ⟨r, hr⟩ := redact_some_of_some b [c.apiKey, c.appKey]
        rw [hr] at hnone
        cases hnone
      | none =>
        rw [hbe] at hnone
        dsimp only at hnone ⊢
        cases hh : handleResponse resp out with
        | fail st e' =>
          rw [hh] at hnone
          dsimp only at hnone
          obtain ⟨r, hr⟩ := redact_some_of_some e' [c.apiKey, c.appKey]
          rw [hr] at hnone
          cases hnone
        | success => dsimp only

/-- Witness for `c10_metadata_zero`: a failing request carries the
all-zero metadata, and a successful one carries the header-derived
rate limit. -/
theorem c10_witness :
    (doRequestWithContext c2client "/v1/events".toList c2steps none).1
      = ⟨⟨0, 0, 0, 0⟩⟩ ∧
    (doRequestWithContext c2client "/v1/events".toList
        ⟨none, none, Except.ok c10resp⟩ none).1
      = ⟨⟨10, 0, 0, 0⟩⟩ :=
  ⟨(c10_metadata_zero c2client "/v1/events".toList c2steps none).1 (by decide),
   ((c10_metadata_zero c2client "/v1/events".toList
      ⟨none, none, Except.ok c10resp⟩ none).2 c10resp rfl (by decide)).trans
     (by decide)⟩
